import Mathlib

/-!
# LSM6DSO soft-fusion driver

A shallow embedding of `src/sensors/softfusion/drivers/lsm6dso.h`.

* `uint8_t` values are natural numbers reduced modulo `2 ^ 8`.
* `float` constants are the exact rationals their initialisers denote.
* The driver is a template over its bus transport `I2CImpl`; the transport is
  therefore a parameter here.  A call `i2c.writeReg(reg, value);` may raise
  (C++ exception, unwinding through the driver) or return a value, which the
  driver discards.
* Every call the driver makes on its environment is appended to a trace, so
  that the order of register writes and delays can be stated.
-/

/-- Truncation of an integer constant expression to `uint8_t`. -/
def toUInt8 (n : Nat) : Nat := n % 2 ^ 8

/-- A `struct { reg; value; }` entry of `Regs`. -/
structure RegEntry where
  reg : Nat
  value : Nat
  deriving DecidableEq

/-- The shape of `Regs::Ctrl3C`, which carries two values. -/
structure Ctrl3CEntry where
  reg : Nat
  valueSwReset : Nat
  value : Nat
  deriving DecidableEq

/-- The shape of the nested `struct Regs` handed to the FIFO-parsing base as a
template argument. -/
structure RegsProfile where
  WhoAmI : RegEntry
  Ctrl1XL : RegEntry
  Ctrl2GY : RegEntry
  Ctrl3C : Ctrl3CEntry
  FifoCtrl3BDR : RegEntry
  FifoCtrl4Mode : RegEntry
  FifoStatus : Nat
  FifoData : Nat
  deriving DecidableEq

namespace LSM6DSO

def Address : Nat := toUInt8 0x6a

def GyrFreq : ℚ := 416
def AccFreq : ℚ := 104
def MagFreq : ℚ := 120
def TempFreq : ℚ := 52

def GyrTs : ℚ := 1 / GyrFreq
def AccTs : ℚ := 1 / AccFreq
def MagTs : ℚ := 1 / MagFreq
def TempTs : ℚ := 1 / TempFreq

/-- 35 mdps/LSB at ±1000 dps full scale. -/
def GyroSensitivity : ℚ := 1000 / 35
/-- 0.244 mg/LSB at ±8g full scale. -/
def AccelSensitivity : ℚ := 1000 / 0.244

def TemperatureBias : ℚ := 25
def TemperatureSensitivity : ℚ := 256

def TemperatureZROChange : ℚ := 10

/-- The register profile `struct Regs`. -/
def Regs : RegsProfile where
  WhoAmI := { reg := toUInt8 0x0f, value := toUInt8 0x6c }
  Ctrl1XL := { reg := toUInt8 0x10, value := toUInt8 0b01001100 }
  Ctrl2GY := { reg := toUInt8 0x11, value := toUInt8 0b01101000 }
  Ctrl3C :=
    { reg := toUInt8 0x12
      valueSwReset := toUInt8 1
      value := toUInt8 ((1 <<< 6) ||| (1 <<< 2)) }
  FifoCtrl3BDR := { reg := toUInt8 0x09, value := toUInt8 ((0b0110 <<< 4) ||| 0b0100) }
  FifoCtrl4Mode := { reg := toUInt8 0x0a, value := toUInt8 0b110110 }
  FifoStatus := toUInt8 0x3a
  FifoData := toUInt8 0x78

end LSM6DSO

/-! ## Environment of the driver -/

/-- A call made by the driver on its environment. -/
inductive Event where
  | writeReg (reg value : Nat)
  | readReg (reg : Nat)
  | delay (ms : Nat)
  deriving DecidableEq

/-- The bus transport the driver is instantiated with.  `σ` is the state of the
bus and of the device behind it, `ε` the type of what a call may raise and `ρ`
the type of what `writeReg` returns. -/
structure I2CImpl (σ ε ρ : Type) where
  writeReg : Nat → Nat → σ → Except ε ρ × σ

/-- What a driver routine acts on: the bus, and the calls issued so far. -/
structure World (σ : Type) where
  bus : σ
  trace : List Event
  deriving DecidableEq

/-- A driver routine: it always leaves a world behind, and either returns a
value or propagates what a callee raised. -/
def Drv (σ ε α : Type) : Type := World σ → Except ε α × World σ

namespace Drv

variable {σ ε α β : Type}

/-- Normal return. -/
def ret (a : α) : Drv σ ε α := fun w => (Except.ok a, w)

/-- Sequencing of two statements; a raise in the first skips the second. -/
def seq (m : Drv σ ε α) (f : α → Drv σ ε β) : Drv σ ε β := fun w =>
  match m w with
  | (Except.ok a, w1) => f a w1
  | (Except.error e, w1) => (Except.error e, w1)

instance : Monad (Drv σ ε) where
  pure := ret
  bind := seq

end Drv

/-- The call `i2c.writeReg(reg, value)`: the write is issued, then the
transport decides how the call ends. -/
def i2cWriteReg {σ ε ρ : Type} (i2c : I2CImpl σ ε ρ) (reg value : Nat) : Drv σ ε ρ := fun w =>
  let r := i2c.writeReg reg value w.bus
  (r.1, { bus := r.2, trace := w.trace ++ [Event.writeReg reg value] })

/-- The call `delay(ms)`. -/
def delay {σ ε : Type} (ms : Nat) : Drv σ ε Unit := fun w =>
  (Except.ok (), { w with trace := w.trace ++ [Event.delay ms] })

/-- The method `bool initialize()`. -/
def LSM6DSO.initialize {σ ε ρ : Type} (i2c : I2CImpl σ ε ρ) : Drv σ ε Bool := do
  let _ ← i2cWriteReg i2c LSM6DSO.Regs.Ctrl3C.reg LSM6DSO.Regs.Ctrl3C.valueSwReset
  delay 20
  let _ ← i2cWriteReg i2c LSM6DSO.Regs.Ctrl1XL.reg LSM6DSO.Regs.Ctrl1XL.value
  let _ ← i2cWriteReg i2c LSM6DSO.Regs.Ctrl2GY.reg LSM6DSO.Regs.Ctrl2GY.value
  let _ ← i2cWriteReg i2c LSM6DSO.Regs.Ctrl3C.reg LSM6DSO.Regs.Ctrl3C.value
  let _ ← i2cWriteReg i2c LSM6DSO.Regs.FifoCtrl3BDR.reg LSM6DSO.Regs.FifoCtrl3BDR.value
  let _ ← i2cWriteReg i2c LSM6DSO.Regs.FifoCtrl4Mode.reg LSM6DSO.Regs.FifoCtrl4Mode.value
  return true

/-- A register file: every write succeeds and updates the addressed byte. -/
def regFile : I2CImpl (Nat → Nat) Unit Unit where
  writeReg reg value m := (Except.ok (), fun a => if a = reg then value else m a)

/-- A bus on which no device acknowledges: every `writeReg` returns `false`,
the status by which this transport reports a failed write. -/
def nackBus : I2CImpl Unit Unit Bool where
  writeReg _ _ s := (Except.ok false, s)

/-- A bus that raises on the write number `k` (counting from zero) and
acknowledges the others; its state counts the writes it has seen. -/
def raiseAt (k : Nat) : I2CImpl Nat String Bool where
  writeReg _ _ n := (if n = k then Except.error "bus fault" else Except.ok true, n + 1)

/-- The register writes of `initialize`, in program order. -/
def LSM6DSO.initWrites : List (Nat × Nat) :=
  [ (LSM6DSO.Regs.Ctrl3C.reg, LSM6DSO.Regs.Ctrl3C.valueSwReset),
    (LSM6DSO.Regs.Ctrl1XL.reg, LSM6DSO.Regs.Ctrl1XL.value),
    (LSM6DSO.Regs.Ctrl2GY.reg, LSM6DSO.Regs.Ctrl2GY.value),
    (LSM6DSO.Regs.Ctrl3C.reg, LSM6DSO.Regs.Ctrl3C.value),
    (LSM6DSO.Regs.FifoCtrl3BDR.reg, LSM6DSO.Regs.FifoCtrl3BDR.value),
    (LSM6DSO.Regs.FifoCtrl4Mode.reg, LSM6DSO.Regs.FifoCtrl4Mode.value) ]

/-- The register writes recorded in a trace, oldest first. -/
def writesOf : List Event → List (Nat × Nat)
  | [] => []
  | Event.writeReg reg value :: es => (reg, value) :: writesOf es
  | _ :: es => writesOf es

/-- The registers read in a trace, oldest first. -/
def readsOf : List Event → List Nat
  | [] => []
  | Event.readReg reg :: es => reg :: readsOf es
  | _ :: es => readsOf es

/-- The bus state after the transport has served the given writes in turn. -/
def I2CImpl.after {σ ε ρ : Type} (i2c : I2CImpl σ ε ρ) (s : σ) : List (Nat × Nat) → σ
  | [] => s
  | p :: ps => I2CImpl.after i2c (i2c.writeReg p.1 p.2 s).2 ps

/-- Every one of the given writes, served in turn from state `s`, returns
normally. -/
def I2CImpl.allReturn {σ ε ρ : Type} (i2c : I2CImpl σ ε ρ) (s : σ) : List (Nat × Nat) → Prop
  | [] => True
  | p :: ps =>
    (∃ r, (i2c.writeReg p.1 p.2 s).1 = Except.ok r) ∧
      I2CImpl.allReturn i2c (i2c.writeReg p.1 p.2 s).2 ps

/-! ## Bulk read -/

/-- The method `bulkRead`.  Its only statement is a call of the FIFO-parsing
base `LSM6DSOutputHandler<I2CImpl>::bulkRead<AccelCall, GyroCall, TempCall, Regs>`,
which is a parameter here: it takes the register profile (the template argument
`Regs`), the three callbacks and the three periods, positionally, and yields
whatever a call of it amounts to. -/
def LSM6DSO.bulkRead {AccelCall GyroCall TempCall R : Type}
    (base : RegsProfile → AccelCall → GyroCall → TempCall → ℚ → ℚ → ℚ → R)
    (processAccelSample : AccelCall) (processGyroSample : GyroCall)
    (processTempSample : TempCall) : R :=
  base LSM6DSO.Regs processAccelSample processGyroSample processTempSample
    LSM6DSO.GyrTs LSM6DSO.AccTs LSM6DSO.TempTs

/-- Modelled from the spec: the parameter list of the base's `bulkRead`
(declared in `lsm6ds-common.h`, absent from the sources): the register profile,
the three callbacks, and the three per-channel sample periods, which the base
takes in the order gyro, accel, temperature. -/
structure BaseCall (AccelCall GyroCall TempCall : Type) where
  regs : RegsProfile
  processAccelSample : AccelCall
  processGyroSample : GyroCall
  processTempSample : TempCall
  gyrTs : ℚ
  accTs : ℚ
  tempTs : ℚ

/-- A base that does nothing but record how it is called. -/
def recordBase {AccelCall GyroCall TempCall : Type} (regs : RegsProfile)
    (processAccelSample : AccelCall) (processGyroSample : GyroCall)
    (processTempSample : TempCall) (gyrTs accTs tempTs : ℚ) :
    List (BaseCall AccelCall GyroCall TempCall) → List (BaseCall AccelCall GyroCall TempCall) :=
  fun calls => calls ++
    [{ regs := regs, processAccelSample := processAccelSample,
       processGyroSample := processGyroSample, processTempSample := processTempSample,
       gyrTs := gyrTs, accTs := accTs, tempTs := tempTs }]

/-- The channel a FIFO word belongs to. -/
inductive Channel where
  | accel
  | gyro
  | temperature
  deriving DecidableEq

/-- A decoded FIFO word: its channel and its raw counts (three axes; a
temperature word uses the first). -/
structure FifoSample where
  channel : Channel
  raw : Int × Int × Int
  deriving DecidableEq

/-- One invocation of a sample callback. -/
structure Delivery where
  channel : Channel
  raw : Int × Int × Int
  timestamp : ℚ
  deriving DecidableEq

/-- The number of samples of each channel decoded since configuration. -/
structure SampleCounters where
  accel : Nat
  gyro : Nat
  temperature : Nat
  deriving DecidableEq

/-- A sample callback: raw counts and timestamp, acting on the caller's state. -/
abbrev SampleCall (κ : Type) : Type := Int × Int × Int → ℚ → κ → κ

/-- Modelled from the spec: the handling of one decoded sample by the
FIFO-parsing base (`lsm6ds-common.h`, absent from the sources).  The matching
callback is invoked once; the sample is the N-th of its channel since
configuration and is stamped N periods of that channel. -/
def LSM6DSOutputHandler.deliver {κ : Type} (processAccelSample processGyroSample
    processTempSample : SampleCall κ) (gyrTs accTs tempTs : ℚ)
    (st : SampleCounters × κ) (x : FifoSample) : SampleCounters × κ :=
  match x.channel with
  | Channel.accel =>
    ({ st.1 with accel := st.1.accel + 1 },
      processAccelSample x.raw (((st.1.accel + 1 : Nat) : ℚ) * accTs) st.2)
  | Channel.gyro =>
    ({ st.1 with gyro := st.1.gyro + 1 },
      processGyroSample x.raw (((st.1.gyro + 1 : Nat) : ℚ) * gyrTs) st.2)
  | Channel.temperature =>
    ({ st.1 with temperature := st.1.temperature + 1 },
      processTempSample x.raw (((st.1.temperature + 1 : Nat) : ℚ) * tempTs) st.2)

/-- Modelled from the spec: the FIFO-parsing base `LSM6DSOutputHandler::bulkRead`
(`lsm6ds-common.h`, absent from the sources).  `fifo status data` is what the
successive reads of the FIFO status register `status` and of the FIFO data
register `data` yield until the FIFO is empty, one list of decoded samples per
status read; every sample is delivered in FIFO order. -/
def LSM6DSOutputHandler.bulkRead {κ : Type} (fifo : Nat → Nat → List (List FifoSample))
    (regs : RegsProfile) (processAccelSample processGyroSample processTempSample : SampleCall κ)
    (gyrTs accTs tempTs : ℚ) (st : SampleCounters × κ) : SampleCounters × κ :=
  (fifo regs.FifoStatus regs.FifoData).foldl
    (fun st chunk =>
      chunk.foldl
        (LSM6DSOutputHandler.deliver processAccelSample processGyroSample processTempSample
          gyrTs accTs tempTs) st)
    st

/-- A callback that appends what it is invoked with to a log. -/
def logSample (c : Channel) : SampleCall (List Delivery) :=
  fun raw timestamp log => log ++ [{ channel := c, raw := raw, timestamp := timestamp }]

/-- The timestamps delivered to the callback of channel `c`, oldest first. -/
def channelTimestamps (c : Channel) (log : List Delivery) : List ℚ :=
  (log.filter fun d => d.channel = c).map Delivery.timestamp

/-- The samples of channel `c` in a FIFO drain, whatever its split into reads. -/
def channelSamples (c : Channel) (reads : List (List FifoSample)) : List FifoSample :=
  reads.flatten.filter fun x => x.channel = c

/-- The counter of channel `c`. -/
def SampleCounters.of (n : SampleCounters) : Channel → Nat
  | Channel.accel => n.accel
  | Channel.gyro => n.gyro
  | Channel.temperature => n.temperature

/-- The period the driver configures for channel `c`. -/
def LSM6DSO.periodOf : Channel → ℚ
  | Channel.accel => LSM6DSO.AccTs
  | Channel.gyro => LSM6DSO.GyrTs
  | Channel.temperature => LSM6DSO.TempTs

/-! ## Unit conversion -/

/-- Modelled from the spec: conversion of a raw accelerometer count,
`physical = raw / sensitivity`; the conversion code is not part of the driver
file. -/
def convertAccel (r : Int) : ℚ := (r : ℚ) / LSM6DSO.AccelSensitivity

/-- Modelled from the spec: conversion of a raw gyroscope count,
`physical = raw / sensitivity`; the conversion code is not part of the driver
file. -/
def convertGyro (r : Int) : ℚ := (r : ℚ) / LSM6DSO.GyroSensitivity

/-- Modelled from the spec: conversion of a raw temperature count,
`physical = bias + raw / sensitivity`; the conversion code is not part of the
driver file. -/
def convertTemperature (r : Int) : ℚ :=
  LSM6DSO.TemperatureBias + (r : ℚ) / LSM6DSO.TemperatureSensitivity

/-- Issue the given register writes in turn; a raise skips the rest. -/
def issueWrites {σ ε ρ : Type} (i2c : I2CImpl σ ε ρ) : List (Nat × Nat) → Drv σ ε Unit
  | [] => pure ()
  | p :: ps => i2cWriteReg i2c p.1 p.2 >>= fun _ => issueWrites i2c ps

/-- The trace entries of a list of register writes. -/
def writeEvents (ws : List (Nat × Nat)) : List Event :=
  ws.map fun p => Event.writeReg p.1 p.2

/-! ## Lemmas -/

theorem writesOf_append (xs ys : List Event) : writesOf (xs ++ ys) = writesOf xs ++ writesOf ys := by
  induction xs with
  | nil => rfl
  | cons x xs ih => cases x <;> simp [writesOf, ih]

theorem readsOf_append (xs ys : List Event) : readsOf (xs ++ ys) = readsOf xs ++ readsOf ys := by
  induction xs with
  | nil => rfl
  | cons x xs ih => cases x <;> simp [readsOf, ih]

theorem writesOf_writeEvents (ws : List (Nat × Nat)) : writesOf (writeEvents ws) = ws := by
  induction ws with
  | nil => rfl
  | cons p ps ih => simpa [writeEvents, writesOf] using ih

theorem Drv.seq_assoc {σ ε α β γ : Type} (m : Drv σ ε α) (f : α → Drv σ ε β)
    (g : β → Drv σ ε γ) : (m >>= f) >>= g = m >>= fun a => f a >>= g := by
  funext w
  show Drv.seq (Drv.seq m f) g w = Drv.seq m (fun a => Drv.seq (f a) g) w
  unfold Drv.seq
  rcases m w with ⟨_ | _, _⟩ <;> rfl

theorem Drv.pure_seq {σ ε α β : Type} (a : α) (f : α → Drv σ ε β) (w : World σ) :
    ((pure a : Drv σ ε α) >>= f) w = f a w := rfl

theorem seq_i2cWriteReg_ok {σ ε ρ β : Type} (i2c : I2CImpl σ ε ρ) (reg value : Nat)
    (f : ρ → Drv σ ε β) (w : World σ) (r : ρ)
    (h : (i2c.writeReg reg value w.bus).1 = Except.ok r) :
    (i2cWriteReg i2c reg value >>= f) w
      = f r (World.mk (i2c.writeReg reg value w.bus).2
              (w.trace ++ [Event.writeReg reg value])) := by
  show Drv.seq _ _ _ = _
  simp only [Drv.seq, i2cWriteReg, h]

theorem seq_i2cWriteReg_error {σ ε ρ β : Type} (i2c : I2CImpl σ ε ρ) (reg value : Nat)
    (f : ρ → Drv σ ε β) (w : World σ) (e : ε)
    (h : (i2c.writeReg reg value w.bus).1 = Except.error e) :
    (i2cWriteReg i2c reg value >>= f) w
      = (Except.error e, World.mk (i2c.writeReg reg value w.bus).2
              (w.trace ++ [Event.writeReg reg value])) := by
  show Drv.seq _ _ _ = _
  simp only [Drv.seq, i2cWriteReg, h]

theorem seq_delay {σ ε β : Type} (ms : Nat) (f : Unit → Drv σ ε β) (w : World σ) :
    ((delay ms : Drv σ ε Unit) >>= f) w
      = f () (World.mk w.bus (w.trace ++ [Event.delay ms])) := rfl

/-- When every write returns, the whole list is issued and the continuation
runs on the bus state they leave. -/
theorem issueWrites_allReturn {σ ε ρ β : Type} (i2c : I2CImpl σ ε ρ) (ws : List (Nat × Nat))
    (f : Unit → Drv σ ε β) (w : World σ) (h : i2c.allReturn w.bus ws) :
    (issueWrites i2c ws >>= f) w
      = f () (World.mk (i2c.after w.bus ws) (w.trace ++ writeEvents ws)) := by
  induction ws generalizing w with
  | nil => simp [issueWrites, Drv.pure_seq, I2CImpl.after, writeEvents]
  | cons p ps ih =>
    obtain ⟨⟨r, hr⟩, hps⟩ := h
    rw [issueWrites, Drv.seq_assoc, seq_i2cWriteReg_ok _ _ _ _ _ _ hr, ih _ hps]
    simp [I2CImpl.after, writeEvents]

/-- When a write raises after all the writes before it returned, the writes up
to and including it are issued, the others are not, and the raise propagates. -/
theorem issueWrites_raise {σ ε ρ β : Type} (i2c : I2CImpl σ ε ρ) (pre post : List (Nat × Nat))
    (p : Nat × Nat) (e : ε) (f : Unit → Drv σ ε β) (w : World σ)
    (hpre : i2c.allReturn w.bus pre)
    (hraise : (i2c.writeReg p.1 p.2 (i2c.after w.bus pre)).1 = Except.error e) :
    (issueWrites i2c (pre ++ p :: post) >>= f) w
      = (Except.error e, World.mk (i2c.writeReg p.1 p.2 (i2c.after w.bus pre)).2
          (w.trace ++ writeEvents (pre ++ [p]))) := by
  induction pre generalizing w with
  | nil =>
    simp only [List.nil_append, issueWrites, Drv.seq_assoc]
    rw [seq_i2cWriteReg_error _ _ _ _ _ _ hraise]
    simp [I2CImpl.after, writeEvents]
  | cons q qs ih =>
    obtain ⟨⟨r, hr⟩, hqs⟩ := hpre
    have hgo := ih (World.mk (i2c.writeReg q.1 q.2 w.bus).2 (w.trace ++ [Event.writeReg q.1 q.2]))
      hqs hraise
    rw [List.cons_append, issueWrites, Drv.seq_assoc, seq_i2cWriteReg_ok _ _ _ _ _ _ hr, hgo]
    simp [I2CImpl.after, writeEvents]

/-- The body of `initialize` is its first write, the delay, the remaining
writes and the return, in that order. -/
theorem initialize_eq {σ ε ρ : Type} (i2c : I2CImpl σ ε ρ) :
    LSM6DSO.initialize i2c
      = (i2cWriteReg i2c LSM6DSO.Regs.Ctrl3C.reg LSM6DSO.Regs.Ctrl3C.valueSwReset >>= fun _ =>
          (delay 20 : Drv σ ε Unit) >>= fun _ =>
            issueWrites i2c LSM6DSO.initWrites.tail >>= fun _ => pure true) := by
  funext w
  simp only [ LSM6DSO.initialize, LSM6DSO.initWrites, List.tail_cons, issueWrites, Drv.seq_assoc]
  rfl

theorem allReturn_of_forall {σ ε ρ : Type} (i2c : I2CImpl σ ε ρ)
    (hok : ∀ reg value s, ∃ r, (i2c.writeReg reg value s).1 = Except.ok r)
    (s : σ) (ws : List (Nat × Nat)) : i2c.allReturn s ws := by
  induction ws generalizing s with
  | nil => trivial
  | cons p ps ih => exact ⟨hok p.1 p.2 s, ih _⟩

/-- A run of `initialize` in which every write returns. -/
theorem initialize_of_allReturn {σ ε ρ : Type} (i2c : I2CImpl σ ε ρ) (w : World σ)
    (h : i2c.allReturn w.bus LSM6DSO.initWrites) :
    LSM6DSO.initialize i2c w
      = (Except.ok true, World.mk (i2c.after w.bus LSM6DSO.initWrites)
          (w.trace ++ [Event.writeReg 0x12 0x01, Event.delay 20, Event.writeReg 0x10 0x4C,
            Event.writeReg 0x11 0x68, Event.writeReg 0x12 0x44, Event.writeReg 0x09 0x64,
            Event.writeReg 0x0A 0x36])) := by
  obtain ⟨⟨r, hr⟩, hrest⟩ := h
  rw [initialize_eq, seq_i2cWriteReg_ok _ _ _ _ _ _ hr, seq_delay,
    issueWrites_allReturn _ _ _ _ hrest]
  simp [LSM6DSO.initWrites, I2CImpl.after, writeEvents, LSM6DSO.Regs, toUInt8]
  rfl

/-- A run of `initialize` in which a write raises after the writes before it
returned. -/
theorem initialize_of_raise {σ ε ρ : Type} (i2c : I2CImpl σ ε ρ) (w : World σ)
    (pre post : List (Nat × Nat)) (p : Nat × Nat) (e : ε)
    (hsplit : LSM6DSO.initWrites = pre ++ p :: post)
    (hpre : i2c.allReturn w.bus pre)
    (hraise : (i2c.writeReg p.1 p.2 (i2c.after w.bus pre)).1 = Except.error e) :
    ( LSM6DSO.initialize i2c w).1 = Except.error e ∧
      writesOf ( LSM6DSO.initialize i2c w).2.trace = writesOf w.trace ++ (pre ++ [p]) := by
  cases pre with
  | nil =>
    have hp : p = (LSM6DSO.Regs.Ctrl3C.reg, LSM6DSO.Regs.Ctrl3C.valueSwReset) := by
      have := congrArg List.head? hsplit
      simpa [LSM6DSO.initWrites] using this.symm
    subst hp
    rw [initialize_eq, seq_i2cWriteReg_error _ _ _ _ _ _ hraise]
    simp [writesOf_append, writesOf]
  | cons q qs =>
    have hq : q = (LSM6DSO.Regs.Ctrl3C.reg, LSM6DSO.Regs.Ctrl3C.valueSwReset) := by
      have := congrArg List.head? hsplit
      simpa [LSM6DSO.initWrites] using this.symm
    have htail : LSM6DSO.initWrites.tail = qs ++ p :: post := by
      have := congrArg List.tail hsplit
      simpa using this
    subst hq
    obtain ⟨⟨r, hr⟩, hqs⟩ := hpre
    have hgo := issueWrites_raise i2c qs post p e (fun _ => (pure true : Drv σ ε Bool))
      (World.mk (i2c.writeReg LSM6DSO.Regs.Ctrl3C.reg LSM6DSO.Regs.Ctrl3C.valueSwReset w.bus).2
        (w.trace ++ [Event.writeReg LSM6DSO.Regs.Ctrl3C.reg LSM6DSO.Regs.Ctrl3C.valueSwReset]
          ++ [Event.delay 20]))
      hqs hraise
    rw [initialize_eq, seq_i2cWriteReg_ok _ _ _ _ _ _ hr, seq_delay, htail]
    rw [hgo]
    simp [writesOf_append, writesOf, writesOf_writeEvents]

/-! ## Initialisation sequence -/

/-- C1: on a transport whose register writes all return, `initialize` issues
exactly the six writes (0x12, 0x01), (0x10, 0x4C), (0x11, 0x68), (0x12, 0x44),
(0x09, 0x64), (0x0A, 0x36) in this order, with the 20 ms delay after the first
and before all the others; it reads no register, writes none of WhoAmI (0x0F),
FifoStatus (0x3A), FifoData (0x78), and returns `true`. -/
theorem initialize_six_writes {σ ε ρ : Type} (i2c : I2CImpl σ ε ρ) (w : World σ)
    (hok : ∀ reg value s, ∃ r, (i2c.writeReg reg value s).1 = Except.ok r) :
    ( LSM6DSO.initialize i2c w).1 = Except.ok true ∧
    ( LSM6DSO.initialize i2c w).2.trace = w.trace ++
      [Event.writeReg 0x12 0x01, Event.delay 20, Event.writeReg 0x10 0x4C,
       Event.writeReg 0x11 0x68, Event.writeReg 0x12 0x44, Event.writeReg 0x09 0x64,
       Event.writeReg 0x0A 0x36] ∧
    writesOf ( LSM6DSO.initialize i2c w).2.trace = writesOf w.trace ++
      [(0x12, 0x01), (0x10, 0x4C), (0x11, 0x68), (0x12, 0x44), (0x09, 0x64), (0x0A, 0x36)] ∧
    readsOf ( LSM6DSO.initialize i2c w).2.trace = readsOf w.trace ∧
    (∀ value, (LSM6DSO.Regs.WhoAmI.reg, value) ∈ writesOf ( LSM6DSO.initialize i2c w).2.trace →
      (LSM6DSO.Regs.WhoAmI.reg, value) ∈ writesOf w.trace) ∧
    (∀ value, (LSM6DSO.Regs.FifoStatus, value) ∈ writesOf ( LSM6DSO.initialize i2c w).2.trace →
      (LSM6DSO.Regs.FifoStatus, value) ∈ writesOf w.trace) ∧
    (∀ value, (LSM6DSO.Regs.FifoData, value) ∈ writesOf ( LSM6DSO.initialize i2c w).2.trace →
      (LSM6DSO.Regs.FifoData, value) ∈ writesOf w.trace) ∧
    LSM6DSO.Regs.WhoAmI.reg = 0x0F ∧ LSM6DSO.Regs.FifoStatus = 0x3A ∧
    LSM6DSO.Regs.FifoData = 0x78 := by
  rw [initialize_of_allReturn i2c w (allReturn_of_forall i2c hok _ _)]
  refine ⟨rfl, rfl, ?_, ?_, ?_, ?_, ?_, by decide, by decide, by decide⟩
  · simp [writesOf_append, writesOf]
  · simp [readsOf_append, readsOf]
  · intro value
    simp [writesOf_append, writesOf, LSM6DSO.Regs, toUInt8]
  · intro value
    simp [writesOf_append, writesOf, LSM6DSO.Regs, toUInt8]
  · intro value
    simp [writesOf_append, writesOf, LSM6DSO.Regs, toUInt8]

theorem initialize_six_writes_witness :
    (∀ reg value s, ∃ r, (regFile.writeReg reg value s).1 = Except.ok r) ∧
    ( LSM6DSO.initialize regFile ⟨fun _ => 0, []⟩).1 = Except.ok true ∧
    ( LSM6DSO.initialize regFile ⟨fun _ => 0, []⟩).2.trace =
      [Event.writeReg 0x12 0x01, Event.delay 20, Event.writeReg 0x10 0x4C,
       Event.writeReg 0x11 0x68, Event.writeReg 0x12 0x44, Event.writeReg 0x09 0x64,
       Event.writeReg 0x0A 0x36] :=
  have hok : ∀ reg value s, ∃ r, (regFile.writeReg reg value s).1 = Except.ok r :=
    fun _ _ _ => ⟨(), rfl⟩
  ⟨hok, (initialize_six_writes regFile ⟨fun _ => 0, []⟩ hok).1,
    (initialize_six_writes regFile ⟨fun _ => 0, []⟩ hok).2.1⟩

/-- C2 (as stated, refuted): on a bus whose `writeReg` reports failure through
its return value, already on the first write, `initialize` still issues all
six writes and returns `true`. -/
theorem initialize_ignores_write_status :
    (nackBus.writeReg LSM6DSO.Regs.Ctrl3C.reg LSM6DSO.Regs.Ctrl3C.valueSwReset ()).1
      = Except.ok false ∧
    ( LSM6DSO.initialize nackBus ⟨(), []⟩).1 = Except.ok true ∧
    writesOf ( LSM6DSO.initialize nackBus ⟨(), []⟩).2.trace =
      [(0x12, 0x01), (0x10, 0x4C), (0x11, 0x68), (0x12, 0x44), (0x09, 0x64), (0x0A, 0x36)] :=
  ⟨rfl, rfl, by decide⟩

/-- C2 (amended): if the transport raises on the k-th register write of
`initialize` (the writes `pre` before it having returned), the writes issued
are exactly the first k, none of the later writes `post` is issued, and what
was raised propagates to the caller in place of a return value. -/
theorem initialize_raise_aborts {σ ε ρ : Type} (i2c : I2CImpl σ ε ρ) (w : World σ)
    (pre post : List (Nat × Nat)) (p : Nat × Nat) (e : ε)
    (hsplit : LSM6DSO.initWrites = pre ++ p :: post)
    (hpre : i2c.allReturn w.bus pre)
    (hraise : (i2c.writeReg p.1 p.2 (i2c.after w.bus pre)).1 = Except.error e) :
    ( LSM6DSO.initialize i2c w).1 = Except.error e ∧
      writesOf ( LSM6DSO.initialize i2c w).2.trace = writesOf w.trace ++ (pre ++ [p]) :=
  initialize_of_raise i2c w pre post p e hsplit hpre hraise

theorem initialize_raise_aborts_witness :
    LSM6DSO.initWrites
      = [(0x12, 0x01), (0x10, 0x4C)] ++ (0x11, 0x68) :: [(0x12, 0x44), (0x09, 0x64), (0x0A, 0x36)] ∧
    ( LSM6DSO.initialize (raiseAt 2) ⟨0, []⟩).1 = Except.error "bus fault" ∧
    writesOf ( LSM6DSO.initialize (raiseAt 2) ⟨0, []⟩).2.trace
      = [] ++ ([(0x12, 0x01), (0x10, 0x4C)] ++ [(0x11, 0x68)]) :=
  ⟨by decide,
    initialize_raise_aborts (raiseAt 2) ⟨0, []⟩ [(0x12, 0x01), (0x10, 0x4C)]
      [(0x12, 0x44), (0x09, 0x64), (0x0A, 0x36)] (0x11, 0x68) "bus fault" (by decide)
      ⟨⟨true, rfl⟩, ⟨true, rfl⟩, trivial⟩ rfl⟩

/-- C3: on a register file (a map from address to byte that each write
updates), a second run of `initialize` issues the same calls as the first, and
leaves the register state the first run left; both return `true`. -/
theorem initialize_idempotent (m : Nat → Nat) :
    ( LSM6DSO.initialize regFile ⟨m, []⟩).1 = Except.ok true ∧
    ( LSM6DSO.initialize regFile ⟨( LSM6DSO.initialize regFile ⟨m, []⟩).2.bus, []⟩).1
      = Except.ok true ∧
    ( LSM6DSO.initialize regFile ⟨( LSM6DSO.initialize regFile ⟨m, []⟩).2.bus, []⟩).2.trace
      = ( LSM6DSO.initialize regFile ⟨m, []⟩).2.trace ∧
    writesOf ( LSM6DSO.initialize regFile ⟨m, []⟩).2.trace = LSM6DSO.initWrites ∧
    ( LSM6DSO.initialize regFile ⟨( LSM6DSO.initialize regFile ⟨m, []⟩).2.bus, []⟩).2.bus
      = ( LSM6DSO.initialize regFile ⟨m, []⟩).2.bus := by
  have hok : ∀ reg value s, ∃ r, (regFile.writeReg reg value s).1 = Except.ok r :=
    fun _ _ _ => ⟨(), rfl⟩
  have hrun : ∀ w : World (Nat → Nat), LSM6DSO.initialize regFile w = _ :=
    fun w => initialize_of_allReturn regFile w (allReturn_of_forall regFile hok _ _)
  rw [hrun ⟨m, []⟩, hrun ⟨_, []⟩]
  refine ⟨rfl, rfl, rfl, by simp [writesOf, LSM6DSO.initWrites, LSM6DSO.Regs, toUInt8], ?_⟩
  funext a
  simp only [I2CImpl.after, LSM6DSO.initWrites, regFile, LSM6DSO.Regs, toUInt8]
  split_ifs <;> rfl

/-! ## Bulk read -/

/-- Delivering a list of samples to logging callbacks stamps the samples of
each channel with consecutive multiples of the period given for it. -/
theorem deliver_foldl_stamps (gyrTs accTs tempTs : ℚ) (ch : Channel) (xs : List FifoSample)
    (n : SampleCounters) (log : List Delivery) :
    channelTimestamps ch (xs.foldl
        (LSM6DSOutputHandler.deliver (logSample Channel.accel) (logSample Channel.gyro)
          (logSample Channel.temperature) gyrTs accTs tempTs) (n, log)).2
      = channelTimestamps ch log ++
          (List.range' (n.of ch + 1) (xs.filter fun x => x.channel = ch).length).map
            fun k : Nat => (k : ℚ) *
              (match ch with
               | Channel.accel => accTs
               | Channel.gyro => gyrTs
               | Channel.temperature => tempTs) := by
  induction xs generalizing n log with
  | nil => simp
  | cons x xs ih =>
    obtain ⟨c, raw⟩ := x
    cases c <;> cases ch <;>
      · simp only [List.foldl_cons, LSM6DSOutputHandler.deliver]
        rw [ih]
        simp [logSample, channelTimestamps, List.range'_succ, SampleCounters.of]

theorem chain_spacing_range' (g : ℚ) (s n : Nat) :
    List.Chain' (fun a b : ℚ => b - a = g) ((List.range' s n).map fun k : Nat => (k : ℚ) * g) := by
  induction n generalizing s with
  | zero => simp
  | succ n ih =>
    rw [List.range'_succ, List.map_cons, List.chain'_cons']
    refine ⟨?_, ih (s + 1)⟩
    intro y hy
    cases n with
    | zero => simp at hy
    | succ n =>
      simp [List.range'_succ] at hy
      subst hy
      ring

theorem pairwise_lt_stamps (g : ℚ) (hg : 0 < g) (s n : Nat) :
    List.Pairwise (fun a b : ℚ => a < b) ((List.range' s n).map fun k : Nat => (k : ℚ) * g) := by
  refine List.Pairwise.map _ ?_ (List.pairwise_lt_range' s n)
  intro a b hab
  exact mul_lt_mul_of_pos_right (by exact_mod_cast hab) hg

theorem periodOf_pos (ch : Channel) : 0 < LSM6DSO.periodOf ch := by
  cases ch <;>
    norm_num [LSM6DSO.periodOf, LSM6DSO.AccTs, LSM6DSO.GyrTs, LSM6DSO.TempTs, LSM6DSO.AccFreq,
      LSM6DSO.GyrFreq, LSM6DSO.TempFreq]

/-- The timestamps `bulkRead` delivers on channel `ch`, over the base as the
spec describes it. -/
theorem bulkRead_stamps (fifo : Nat → Nat → List (List FifoSample)) (n : SampleCounters)
    (ch : Channel) :
    channelTimestamps ch ( LSM6DSO.bulkRead (LSM6DSOutputHandler.bulkRead fifo)
        (logSample Channel.accel) (logSample Channel.gyro) (logSample Channel.temperature)
        (n, [])).2
      = (List.range' (n.of ch + 1)
          (channelSamples ch (fifo LSM6DSO.Regs.FifoStatus LSM6DSO.Regs.FifoData)).length).map
            fun k : Nat => (k : ℚ) * LSM6DSO.periodOf ch := by
  unfold LSM6DSO.bulkRead LSM6DSOutputHandler.bulkRead
  rw [← List.foldl_flatten, deliver_foldl_stamps]
  cases ch <;> simp [channelTimestamps, channelSamples, LSM6DSO.periodOf]

/-- C4: whatever the split of a FIFO drain into FIFO-status reads, the
timestamps `bulkRead` delivers to the gyro callback for its N gyro samples are
N in number, consecutive ones differ by exactly GyrTs = 1/416 s, and they
depend on the drained samples only, not on the split; on every channel the
timestamps delivered are strictly increasing, so no two samples of a channel
get equal or out-of-order timestamps. -/
theorem bulkRead_gyro_timestamps (fifo : Nat → Nat → List (List FifoSample))
    (n : SampleCounters) :
    (channelTimestamps Channel.gyro ( LSM6DSO.bulkRead (LSM6DSOutputHandler.bulkRead fifo)
        (logSample Channel.accel) (logSample Channel.gyro) (logSample Channel.temperature)
        (n, [])).2).length = (channelSamples Channel.gyro (fifo 0x3A 0x78)).length ∧
    List.Chain' (fun a b : ℚ => b - a = 1 / 416)
      (channelTimestamps Channel.gyro ( LSM6DSO.bulkRead (LSM6DSOutputHandler.bulkRead fifo)
        (logSample Channel.accel) (logSample Channel.gyro) (logSample Channel.temperature)
        (n, [])).2) ∧
    (∀ ch : Channel, List.Pairwise (fun a b : ℚ => a < b)
      (channelTimestamps ch ( LSM6DSO.bulkRead (LSM6DSOutputHandler.bulkRead fifo)
        (logSample Channel.accel) (logSample Channel.gyro) (logSample Channel.temperature)
        (n, [])).2)) ∧
    (∀ fifo' : Nat → Nat → List (List FifoSample),
      (fifo' 0x3A 0x78).flatten = (fifo 0x3A 0x78).flatten →
      channelTimestamps Channel.gyro
          ( LSM6DSO.bulkRead (LSM6DSOutputHandler.bulkRead fifo')
            (logSample Channel.accel) (logSample Channel.gyro) (logSample Channel.temperature)
            (n, [])).2
        = channelTimestamps Channel.gyro
          ( LSM6DSO.bulkRead (LSM6DSOutputHandler.bulkRead fifo)
            (logSample Channel.accel) (logSample Channel.gyro) (logSample Channel.temperature)
            (n, [])).2) ∧
    LSM6DSO.GyrTs = 1 / 416 := by
  have hts : LSM6DSO.periodOf Channel.gyro = 1 / 416 := by
    norm_num [LSM6DSO.periodOf, LSM6DSO.GyrTs, LSM6DSO.GyrFreq]
  have hregs : LSM6DSO.Regs.FifoStatus = 0x3A ∧ LSM6DSO.Regs.FifoData = 0x78 := by decide
  refine ⟨?_, ?_, ?_, ?_, hts⟩
  · rw [bulkRead_stamps, hregs.1, hregs.2]
    simp
  · rw [bulkRead_stamps, hts]
    exact chain_spacing_range' _ _ _
  · intro ch
    rw [bulkRead_stamps]
    exact pairwise_lt_stamps _ (periodOf_pos ch) _ _
  · intro fifo' hsame
    rw [bulkRead_stamps, bulkRead_stamps, hregs.1, hregs.2]
    simp only [channelSamples, hsame]

/-- C5: `bulkRead` amounts to one call of the base's `bulkRead` and nothing
else, whatever the base: the callbacks are passed on unchanged in the order
(accel, gyro, temperature), the periods are (1/416, 1/104, 1/52) in the base's
(gyro, accel, temperature) order, and the register profile handed over has FIFO
status address 0x3A and FIFO data address 0x78. -/
theorem bulkRead_forwards {AccelCall GyroCall TempCall R : Type}
    (base : RegsProfile → AccelCall → GyroCall → TempCall → ℚ → ℚ → ℚ → R)
    (processAccelSample : AccelCall) (processGyroSample : GyroCall)
    (processTempSample : TempCall) :
    LSM6DSO.bulkRead base processAccelSample processGyroSample processTempSample
      = base LSM6DSO.Regs processAccelSample processGyroSample processTempSample
          (1 / 416) (1 / 104) (1 / 52) ∧
    LSM6DSO.bulkRead recordBase processAccelSample processGyroSample processTempSample []
      = [{ regs := LSM6DSO.Regs, processAccelSample := processAccelSample,
           processGyroSample := processGyroSample, processTempSample := processTempSample,
           gyrTs := 1 / 416, accTs := 1 / 104, tempTs := 1 / 52 }] ∧
    LSM6DSO.Regs.FifoStatus = 0x3A ∧ LSM6DSO.Regs.FifoData = 0x78 := by
  have hg : LSM6DSO.GyrTs = 1 / 416 := by norm_num [LSM6DSO.GyrTs, LSM6DSO.GyrFreq]
  have ha : LSM6DSO.AccTs = 1 / 104 := by norm_num [LSM6DSO.AccTs, LSM6DSO.AccFreq]
  have ht : LSM6DSO.TempTs = 1 / 52 := by norm_num [LSM6DSO.TempTs, LSM6DSO.TempFreq]
  refine ⟨?_, ?_, by decide, by decide⟩
  · rw [LSM6DSO.bulkRead, hg, ha, ht]
  · rw [LSM6DSO.bulkRead, hg, ha, ht]
    rfl

/-! ## Constants -/

/-- C6: each channel's conversion is affine in the raw count with a strictly
positive slope (0.244/1000 for accel, 35/1000 for gyro, 1/256 for temperature),
hence strictly increasing, and maps 0 to 0 for accel and gyro and to 25 for
temperature.  This holds for all integers, the signed 16-bit counts among
them. -/
theorem convert_affine_increasing (r r1 r2 : Int) (h : r1 < r2) :
    (convertAccel r = (0.244 / 1000) * r + 0 ∧ (0 : ℚ) < 0.244 / 1000) ∧
    (convertGyro r = (35 / 1000) * r + 0 ∧ (0 : ℚ) < 35 / 1000) ∧
    (convertTemperature r = (1 / 256) * r + 25 ∧ (0 : ℚ) < 1 / 256) ∧
    convertAccel r1 < convertAccel r2 ∧
    convertGyro r1 < convertGyro r2 ∧
    convertTemperature r1 < convertTemperature r2 ∧
    convertAccel 0 = 0 ∧ convertGyro 0 = 0 ∧ convertTemperature 0 = 25 := by
  have hq : (r1 : ℚ) < r2 := by exact_mod_cast h
  unfold convertAccel convertGyro convertTemperature LSM6DSO.AccelSensitivity
    LSM6DSO.GyroSensitivity LSM6DSO.TemperatureBias LSM6DSO.TemperatureSensitivity
  refine ⟨⟨by ring, by norm_num⟩, ⟨by ring, by norm_num⟩, ⟨by ring, by norm_num⟩,
    ?_, ?_, ?_, by norm_num, by norm_num, by norm_num⟩
  · apply div_lt_div_of_pos_right hq
    norm_num
  · apply div_lt_div_of_pos_right hq
    norm_num
  · have := div_lt_div_of_pos_right hq (show (0 : ℚ) < 256 by norm_num)
    linarith

theorem convert_affine_increasing_witness :
    ((-32768 : Int) < 32767) ∧ convertAccel (-32768) < convertAccel 32767 ∧
      convertTemperature 0 = 25 :=
  ⟨by decide, (convert_affine_increasing 0 (-32768) 32767 (by decide)).2.2.2.1,
    (convert_affine_increasing 0 (-32768) 32767 (by decide)).2.2.2.2.2.2.2.2⟩

/-- C7: every sample period is the reciprocal of its own channel's output data
rate: GyrTs = 1 / GyrFreq with GyrTs * 416 = 1, AccTs = 1 / AccFreq with
AccTs * 104 = 1, MagTs = 1 / MagFreq with MagTs * 120 = 1 and
TempTs = 1 / TempFreq with TempTs * 52 = 1. -/
theorem sample_period_reciprocal :
    (LSM6DSO.GyrTs = 1 / LSM6DSO.GyrFreq ∧ LSM6DSO.GyrFreq = 416 ∧ LSM6DSO.GyrTs * 416 = 1) ∧
    (LSM6DSO.AccTs = 1 / LSM6DSO.AccFreq ∧ LSM6DSO.AccFreq = 104 ∧ LSM6DSO.AccTs * 104 = 1) ∧
    (LSM6DSO.MagTs = 1 / LSM6DSO.MagFreq ∧ LSM6DSO.MagFreq = 120 ∧ LSM6DSO.MagTs * 120 = 1) ∧
    (LSM6DSO.TempTs = 1 / LSM6DSO.TempFreq ∧ LSM6DSO.TempFreq = 52 ∧
      LSM6DSO.TempTs * 52 = 1) := by
  refine ⟨⟨rfl, rfl, ?_⟩, ⟨rfl, rfl, ?_⟩, ⟨rfl, rfl, ?_⟩, ⟨rfl, rfl, ?_⟩⟩
  · norm_num [LSM6DSO.GyrTs, LSM6DSO.GyrFreq]
  · norm_num [LSM6DSO.AccTs, LSM6DSO.AccFreq]
  · norm_num [LSM6DSO.MagTs, LSM6DSO.MagFreq]
  · norm_num [LSM6DSO.TempTs, LSM6DSO.TempFreq]

/-- C8: a raw accelerometer count of 1000 divided by AccelSensitivity is
exactly 0.244 g, and every raw count r converts to r * 0.244 / 1000 g. -/
theorem accel_thousand_counts (r : Int) :
    (1000 : ℚ) / LSM6DSO.AccelSensitivity = 0.244 ∧
    convertAccel 1000 = 0.244 ∧
    convertAccel r = (r : ℚ) * 0.244 / 1000 := by
  unfold convertAccel LSM6DSO.AccelSensitivity
  refine ⟨by norm_num, by norm_num, by ring⟩

/-- C9: the value written to the common control register 0x12 in the
configuration step has bits 6 (block data update) and 2 (auto-increment) set
and every other bit clear, bit 0 (software reset) in particular; the reset
value has bit 0 set only; and on a transport whose writes return, the last
write to 0x12 of a run of `initialize` carries the configuration value, whose
reset bit is clear. -/
theorem ctrl3c_value_no_reset {σ ε ρ : Type} (i2c : I2CImpl σ ε ρ) (w : World σ)
    (hok : ∀ reg value s, ∃ r, (i2c.writeReg reg value s).1 = Except.ok r) :
    (List.range 8).filter (fun i => Nat.testBit LSM6DSO.Regs.Ctrl3C.value i) = [2, 6] ∧
    LSM6DSO.Regs.Ctrl3C.value < 2 ^ 8 ∧
    Nat.testBit LSM6DSO.Regs.Ctrl3C.value 0 = false ∧
    (List.range 8).filter (fun i => Nat.testBit LSM6DSO.Regs.Ctrl3C.valueSwReset i) = [0] ∧
    LSM6DSO.Regs.Ctrl3C.valueSwReset < 2 ^ 8 ∧
    LSM6DSO.Regs.Ctrl3C.reg = 0x12 ∧
    ((writesOf ( LSM6DSO.initialize i2c w).2.trace).filter
        fun p => p.1 = LSM6DSO.Regs.Ctrl3C.reg).getLast?
      = some (0x12, LSM6DSO.Regs.Ctrl3C.value) := by
  refine ⟨by decide, by decide, by decide, by decide, by decide, by decide, ?_⟩
  rw [initialize_of_allReturn i2c w (allReturn_of_forall i2c hok _ _)]
  simp [writesOf_append, writesOf, LSM6DSO.Regs, toUInt8, List.filter_cons]

theorem ctrl3c_value_no_reset_witness :
    (∀ reg value s, ∃ r, (regFile.writeReg reg value s).1 = Except.ok r) ∧
    Nat.testBit LSM6DSO.Regs.Ctrl3C.value 0 = false ∧
    ((writesOf ( LSM6DSO.initialize regFile ⟨fun _ => 0, []⟩).2.trace).filter
        fun p => p.1 = LSM6DSO.Regs.Ctrl3C.reg).getLast?
      = some (0x12, LSM6DSO.Regs.Ctrl3C.value) :=
  have hok : ∀ reg value s, ∃ r, (regFile.writeReg reg value s).1 = Except.ok r :=
    fun _ _ _ => ⟨(), rfl⟩
  ⟨hok, (ctrl3c_value_no_reset regFile ⟨fun _ => 0, []⟩ hok).2.2.1,
    (ctrl3c_value_no_reset regFile ⟨fun _ => 0, []⟩ hok).2.2.2.2.2.2⟩

/-- C10: the gyro batch-rate field of the FIFO batching value (bits 7..4)
equals the ODR field of the gyro control value (bits 7..4), 0b0110, and the
accel batch-rate field (bits 3..0) equals the ODR field of the accel control
value (bits 7..4), 0b0100. -/
theorem fifo_batch_rates_match_odr :
    LSM6DSO.Regs.FifoCtrl3BDR.value / 2 ^ 4 % 2 ^ 4 = LSM6DSO.Regs.Ctrl2GY.value / 2 ^ 4 % 2 ^ 4 ∧
    LSM6DSO.Regs.Ctrl2GY.value / 2 ^ 4 % 2 ^ 4 = 0b0110 ∧
    LSM6DSO.Regs.FifoCtrl3BDR.value % 2 ^ 4 = LSM6DSO.Regs.Ctrl1XL.value / 2 ^ 4 % 2 ^ 4 ∧
    LSM6DSO.Regs.Ctrl1XL.value / 2 ^ 4 % 2 ^ 4 = 0b0100 ∧
    LSM6DSO.Regs.FifoCtrl3BDR.value < 2 ^ 8 ∧ LSM6DSO.Regs.Ctrl2GY.value < 2 ^ 8 ∧
    LSM6DSO.Regs.Ctrl1XL.value < 2 ^ 8 := by
  decide
